import Mathlib

/-!
# Push2Type core: shallow embedding and verification

A shallow embedding of the core state and algorithms of the Push2Type
push-to-talk voice satellite (Rust sources under `src/`), together with
theorems settling the specification's testable properties.

Conventions used throughout:
* Rust byte buffers (`Vec<u8>`, `&[u8]`) are `List Nat` with every entry
  below 256; `Vec<i16>` is `List Int` with entries in `[-32768, 32767]`.
* Rust strings are `List Char`; `to_lowercase`/`to_ascii_uppercase` are
  modelled with `Char.toLower`/`Char.toUpper` (the voice and hotkey data
  the program compares is ASCII).
* Machine arithmetic is explicit: `i32` division truncates toward zero
  (`Int.tdiv`), an `as i16` cast wraps modulo 2^16 (`wrap_i16`).
* Stateful code is explicit state passing; channels become lists of
  queued items; wall-clock time becomes an explicit elapsed-milliseconds
  value attached to each observed event.
-/

namespace Push2Type

/-! ## Audio capture state (src/audio.rs, `AudioRecorder`)

The recorder's shared state is the capturing flag and the sample buffer;
`start_capture` and `stop_capture` mutate it exactly as the Rust methods
do (the `Mutex`/`AtomicBool` wrappers serialize access; the sequential
model keeps the same order of operations). -/

structure AudioState where
  capturing : Bool
  buffer : List Int
  deriving Repr, DecidableEq

/-- `AudioRecorder::start_capture`: clear the buffer, then set the
capturing flag. -/
def start_capture (s : AudioState) : AudioState :=
  { s with buffer := [], capturing := true }

/-- `AudioRecorder::stop_capture`: clear the capturing flag, then return
a clone of the accumulated buffer.  The Rust body is
`self.buffer.lock().map(|b| b.clone()).unwrap_or_default()`: it clones
the buffer and does not clear it. -/
def stop_capture (s : AudioState) : AudioState × List Int :=
  ({ s with capturing := false }, s.buffer)

/-! ## Hotkey chord parsing and satisfaction (src/hotkey.rs) -/

/-- The subset of `rdev::Key` values the program mentions, plus a
catch-all constructor standing for every other key of the enum. -/
inductive Key where
  | ControlLeft | ControlRight | ShiftLeft | ShiftRight
  | Alt | AltGr | MetaLeft | MetaRight
  | Space | Return | BackQuote
  | KeyA | KeyB | KeyC | KeyD | KeyE | KeyF | KeyG | KeyH | KeyI
  | KeyJ | KeyK | KeyL | KeyM | KeyN | KeyO | KeyP | KeyQ | KeyR
  | KeyS | KeyT | KeyU | KeyV | KeyW | KeyX | KeyY | KeyZ
  | Num0 | Num1 | Num2 | Num3 | Num4 | Num5 | Num6 | Num7 | Num8 | Num9
  | Other (code : Nat)
  deriving Repr, DecidableEq

/-- `HotkeySpec`: four required-modifier flags plus an optional primary
key. -/
structure HotkeySpec where
  require_ctrl : Bool
  require_shift : Bool
  require_alt : Bool
  require_meta : Bool
  key : Option Key
  deriving Repr, DecidableEq

/-- `KeyState`: currently-down modifier flags plus the set of
currently-down non-modifier keys (the Rust `HashSet` is modelled as a
duplicate-free list). -/
structure KeyState where
  ctrl : Bool
  shift : Bool
  alt : Bool
  meta : Bool
  pressed_non_mod : List Key
  deriving Repr, DecidableEq

/-- `is_hotkey_active`: the chord is rejected as soon as a required
modifier is not down; otherwise a specified primary key must be in the
pressed set, and a chord without a primary key is accepted. -/
def is_hotkey_active (state : KeyState) (spec : HotkeySpec) : Bool :=
  if spec.require_ctrl && !state.ctrl then false
  else if spec.require_shift && !state.shift then false
  else if spec.require_alt && !state.alt then false
  else if spec.require_meta && !state.meta then false
  else
    match spec.key with
    | some key => state.pressed_non_mod.contains key
    | none => true

/-- `map_alpha_numeric`: the uppercase-letter/digit/backquote table. -/
def map_alpha_numeric (c : Char) : Option Key :=
  if c = '`' then some Key.BackQuote
  else if c = 'A' then some Key.KeyA
  else if c = 'B' then some Key.KeyB
  else if c = 'C' then some Key.KeyC
  else if c = 'D' then some Key.KeyD
  else if c = 'E' then some Key.KeyE
  else if c = 'F' then some Key.KeyF
  else if c = 'G' then some Key.KeyG
  else if c = 'H' then some Key.KeyH
  else if c = 'I' then some Key.KeyI
  else if c = 'J' then some Key.KeyJ
  else if c = 'K' then some Key.KeyK
  else if c = 'L' then some Key.KeyL
  else if c = 'M' then some Key.KeyM
  else if c = 'N' then some Key.KeyN
  else if c = 'O' then some Key.KeyO
  else if c = 'P' then some Key.KeyP
  else if c = 'Q' then some Key.KeyQ
  else if c = 'R' then some Key.KeyR
  else if c = 'S' then some Key.KeyS
  else if c = 'T' then some Key.KeyT
  else if c = 'U' then some Key.KeyU
  else if c = 'V' then some Key.KeyV
  else if c = 'W' then some Key.KeyW
  else if c = 'X' then some Key.KeyX
  else if c = 'Y' then some Key.KeyY
  else if c = 'Z' then some Key.KeyZ
  else if c = '0' then some Key.Num0
  else if c = '1' then some Key.Num1
  else if c = '2' then some Key.Num2
  else if c = '3' then some Key.Num3
  else if c = '4' then some Key.Num4
  else if c = '5' then some Key.Num5
  else if c = '6' then some Key.Num6
  else if c = '7' then some Key.Num7
  else if c = '8' then some Key.Num8
  else if c = '9' then some Key.Num9
  else none

/-- `str::split('+')`: splitting an empty string yields one empty piece,
and every separator starts a new piece. -/
def splitOnPlus : List Char → List (List Char)
  | [] => [[]]
  | c :: rest =>
    match splitOnPlus rest with
    | [] => [[]]
    | t :: ts => if c = '+' then [] :: t :: ts else (c :: t) :: ts

/-- `str::trim`: drop whitespace from both ends. -/
def trimChars (l : List Char) : List Char :=
  ((l.dropWhile Char.isWhitespace).reverse.dropWhile Char.isWhitespace).reverse

/-- `str::to_lowercase` on the ASCII data the program handles. -/
def lowerChars (l : List Char) : List Char :=
  l.map Char.toLower

/-- One iteration of the token `match` in `parse_hotkey_spec`.  Note the
single-character arm assigns `spec.key = map_alpha_numeric(..)` directly,
so an unmapped single character clears a previously parsed key. -/
def parse_hotkey_token (spec : HotkeySpec) (token : List Char) : HotkeySpec :=
  if token = "ctrl".data ∨ token = "control".data then
    { spec with require_ctrl := true }
  else if token = "shift".data then { spec with require_shift := true }
  else if token = "alt".data then { spec with require_alt := true }
  else if token = "win".data ∨ token = "window".data ∨ token = "meta".data
      ∨ token = "super".data then
    { spec with require_meta := true }
  else if token = "space".data then { spec with key := some Key.Space }
  else if token = "enter".data then { spec with key := some Key.Return }
  else if token = "backtick".data ∨ token = "grave".data then
    { spec with key := some Key.BackQuote }
  else
    match token with
    | [ch] => { spec with key := map_alpha_numeric ch.toUpper }
    | _ => spec

/-- `parse_hotkey_spec`: fold the trimmed, lowercased tokens, then
reject a specification with no modifiers and no primary key. -/
def parse_hotkey_spec (input : List Char) : Option HotkeySpec :=
  let spec := (splitOnPlus input).foldl
    (fun sp tok => parse_hotkey_token sp (lowerChars (trimChars tok)))
    { require_ctrl := false, require_shift := false, require_alt := false,
      require_meta := false, key := none }
  if !(spec.require_ctrl || spec.require_shift || spec.require_alt
        || spec.require_meta) && spec.key = none then
    none
  else
    some spec

/-- The built-in fallback chord used by `spawn_hotkey_worker` when
parsing fails: ctrl+shift, no primary key. -/
def default_hotkey_spec : HotkeySpec :=
  { require_ctrl := true, require_shift := true, require_alt := false,
    require_meta := false, key := none }

/-- The chord-selection step of `spawn_hotkey_worker`
(`parse_hotkey_spec(..).unwrap_or_else(..)`): the returned flag records
whether the fallback warning event was sent. -/
def worker_hotkey_choice (hotkey_str : List Char) : HotkeySpec × Bool :=
  match parse_hotkey_spec hotkey_str with
  | some spec => (spec, false)
  | none => (default_hotkey_spec, true)

/-! ## TTS voice resolution (src/tts.rs, src/config.rs) -/

/-- The provider identifiers of `config.rs`. -/
inductive Provider where
  | Xai | OpenAi | Groq
  deriving Repr, DecidableEq

/-- `SpeakRequest` (src/tts.rs): the synthesis request body. -/
structure SpeakRequest where
  message : List Char
  persona : Option (List Char)
  voice : Option (List Char)
  provider : Option Provider
  show_text : Option Bool
  style : Option (List Char)
  deriving Repr, DecidableEq

/-- The fields of `AppConfig` (src/config.rs) that voice resolution
reads: per-provider default voice names and the persona→voice table
(the Rust `HashMap` is modelled as an association list). -/
structure AppConfig where
  xai_voice : List Char
  openai_voice : List Char
  groq_voice : List Char
  persona_voices : List (List Char × List Char)
  deriving Repr, DecidableEq

/-- `HashMap::get` on the persona table. -/
def lookup_assoc : List (List Char × List Char) → List Char → Option (List Char)
  | [], _ => none
  | (k, v) :: rest, key => if k = key then some v else lookup_assoc rest key

/-- The fixed valid-voice set of each provider (`is_valid_voice`,
src/tts.rs). -/
def is_valid_voice (provider : Provider) (voice : List Char) : Bool :=
  match provider with
  | .OpenAi =>
    ["alloy".data, "ash".data, "ballad".data, "coral".data, "echo".data,
     "fable".data, "nova".data, "onyx".data, "sage".data, "shimmer".data,
     "verse".data, "marin".data, "cedar".data].contains voice
  | .Groq =>
    ["autumn".data, "diana".data, "hannah".data, "austin".data,
     "daniel".data, "troy".data].contains voice
  | .Xai =>
    ["ara".data, "rex".data, "sal".data, "eve".data, "leo".data].contains voice

/-- `provider_default_voice` (src/tts.rs): the provider's configured
default voice, lowercased — never validated against the voice set. -/
def provider_default_voice (cfg : AppConfig) (provider : Provider) : List Char :=
  match provider with
  | .Xai => lowerChars cfg.xai_voice
  | .OpenAi => lowerChars cfg.openai_voice
  | .Groq => lowerChars cfg.groq_voice

/-- `resolve_voice` (src/tts.rs): explicit request voice first (lowercased,
validated, falling back to the default), then the persona→voice table
(same validation and fallback), then the configured default. -/
def resolve_voice (cfg : AppConfig) (req : SpeakRequest) (provider : Provider) :
    List Char :=
  match req.voice with
  | some v =>
    let candidate := lowerChars v
    if is_valid_voice provider candidate then candidate
    else provider_default_voice cfg provider
  | none =>
    match req.persona with
    | some p =>
      match lookup_assoc cfg.persona_voices (lowerChars p) with
      | some mapped =>
        let candidate := lowerChars mapped
        if is_valid_voice provider candidate then candidate
        else provider_default_voice cfg provider
      | none => provider_default_voice cfg provider
    | none => provider_default_voice cfg provider

/-- The default configuration values of `AppConfig::default` read by
voice resolution: per-provider default voices and the built-in persona
table. -/
def default_voice_config : AppConfig :=
  { xai_voice := "rex".data
    openai_voice := "alloy".data
    groq_voice := "troy".data
    persona_voices :=
      [("codex".data, "rex".data), ("reviewer".data, "sal".data),
       ("planner".data, "eve".data)] }

/-! ## Control-plane request handling (src/server.rs,
rust/push2type-rs/src/server.rs)

Both listener implementations dispatch requests identically.  The serde
JSON deserialization of a `SpeakRequest` body is an external
collaborator, so the handler is parametric in the parse function; the
body read (`read_to_string`) is modelled by its outcome. -/

inductive HttpMethod where
  | Get | Post | OtherMethod (name : List Char)
  deriving Repr, DecidableEq

inductive BodyRead where
  | ok (content : List Char)
  | readFailed
  deriving Repr, DecidableEq

structure HttpResponse where
  status : Nat
  body : List Char
  deriving Repr, DecidableEq

/-- One iteration of the listener loop's request dispatch: returns the
response and the TTS inbound queue after the request. -/
def handle_request (parse_speak : List Char → Option SpeakRequest)
    (method : HttpMethod) (url : List Char) (body : BodyRead)
    (tts_queue : List SpeakRequest) : HttpResponse × List SpeakRequest :=
  if method = HttpMethod.Get ∧ url = "/health".data then
    ({ status := 200, body := "\x7b\"ok\":true\x7d".data }, tts_queue)
  else if method = HttpMethod.Post ∧ url = "/speak".data then
    match body with
    | .readFailed =>
      ({ status := 400, body := "\x7b\"error\":\"invalid body\"\x7d".data },
       tts_queue)
    | .ok content =>
      match parse_speak content with
      | some speak =>
        ({ status := 202, body := "\x7b\"accepted\":true\x7d".data },
         tts_queue ++ [speak])
      | none =>
        ({ status := 400, body := "\x7b\"error\":\"invalid json\"\x7d".data },
         tts_queue)
  else
    ({ status := 404, body := "\x7b\"error\":\"not found\"\x7d".data },
     tts_queue)

/-! ## Streaming synthesis read loop (src/tts.rs, `read_audio_until_done`)

Inbound frames are modelled with base64 payloads already decoded to
bytes; each frame carries the wall-clock milliseconds elapsed since the
session start as observed at the deadline check preceding its read.  An
exhausted frame list stands for a read on a dead connection, which the
source propagates as a read error. -/

inductive XaiEvent where
  /-- `response.output_audio.delta` / `response.audio.delta` with the
  decoded `delta` payload. -/
  | audioDelta (bytes : List Nat)
  /-- `response.output_item.done` with the decoded `audio` fields of the
  item's `content` parts. -/
  | outputItemDone (parts : List (List Nat))
  | responseDone
  | errorEvent (payload : List Char)
  /-- Any other event type: ignored, the loop continues. -/
  | otherEvent
  deriving Repr, DecidableEq

inductive WsFrame where
  | text (event : XaiEvent)
  /-- A text frame whose JSON fails to parse: `serde_json::from_str(..)?`
  aborts the loop. -/
  | textBadJson
  /-- A non-text frame: skipped. -/
  | nonText
  deriving Repr, DecidableEq

inductive TtsFailure where
  | timedOut
  | wsReadFailed
  | jsonParseFailed
  | providerError (payload : List Char)
  deriving Repr, DecidableEq

/-- `chunks_exact(2)` + `i16::from_le_bytes`: little-endian 16-bit
decode of a byte stream, dropping a trailing odd byte. -/
def i16OfLe (b0 b1 : Nat) : Int :=
  if b0 + 256 * b1 < 32768 then ((b0 + 256 * b1 : Nat) : Int)
  else ((b0 + 256 * b1 : Nat) : Int) - 65536

def decode_pcm16le : List Nat → List Int
  | b0 :: b1 :: rest => i16OfLe b0 b1 :: decode_pcm16le rest
  | _ => []

/-- Concatenation of the audio parts of an output-item-done event. -/
def concat_chunks : List (List Nat) → List Nat
  | [] => []
  | c :: cs => c ++ concat_chunks cs

/-- `read_audio_until_done`: accumulate audio deltas until a terminal
event; abort on an `error` event, a failed read or parse, or once the
20-second wall-clock budget is exceeded (checked before each read). -/
def read_audio_until_done (frames : List (Nat × WsFrame)) (acc : List Nat) :
    Except TtsFailure (List Int) :=
  match frames with
  | [] => .error .wsReadFailed
  | (elapsed_ms, frame) :: rest =>
    if 20000 < elapsed_ms then .error .timedOut
    else
      match frame with
      | .nonText => read_audio_until_done rest acc
      | .textBadJson => .error .jsonParseFailed
      | .text e =>
        match e with
        | .audioDelta bytes => read_audio_until_done rest (acc ++ bytes)
        | .outputItemDone parts =>
          read_audio_until_done rest (acc ++ concat_chunks parts)
        | .responseDone => .ok (decode_pcm16le acc)
        | .errorEvent payload => .error (.providerError payload)
        | .otherEvent => read_audio_until_done rest acc

/-! ## Capture normalization and downmix (src/audio.rs) -/

/-- An `as i16` cast on a value already held in `i32`: wrap modulo
2^16 into `[-32768, 32767]`. -/
def wrap_i16 (v : Int) : Int :=
  (v + 32768) % 65536 - 32768

/-- `downmix_i16_to_mono`'s per-frame loop over `chunks_exact(channels)`
(the fuel argument bounds the recursion by the input length; a partial
trailing frame is dropped).  `i32` division truncates toward zero
(`Int.tdiv`), and the quotient is cast back with `as i16`. -/
def downmix_frames (channels : Nat) : Nat → List Int → List Int
  | _, [] => []
  | 0, _ => []
  | fuel + 1, data =>
    if data.length < channels then []
    else
      wrap_i16 (Int.tdiv (data.take channels).sum channels) ::
        downmix_frames channels fuel (data.drop channels)

/-- `downmix_i16_to_mono`: single-channel data is returned unchanged;
otherwise every frame of `channels` samples is averaged. -/
def downmix_i16_to_mono (data : List Int) (channels : Nat) : List Int :=
  if channels ≤ 1 then data
  else downmix_frames channels data.length data

/-- The U16 capture path's per-sample normalization:
`(s as i32 - 32768).clamp(i16::MIN as i32, i16::MAX as i32) as i16`. -/
def normalize_u16_sample (s : Nat) : Int :=
  wrap_i16 (if (s : Int) - 32768 < -32768 then -32768
            else if (s : Int) - 32768 > 32767 then 32767
            else (s : Int) - 32768)

/-- The F32 capture path (src/audio.rs:85) computes
`(s.clamp(-1.0, 1.0) * i16::MAX as f32).round() as i16` in IEEE-754
`f32` arithmetic, which has no exact counterpart in this embedding.
What the embedding does capture is the path's final saturating `as i16`
cast — truncation toward zero, clamped to the i16 range, NaN to 0 —
applied to the result of the floating computation, whatever it is:
`none` stands for NaN, `some q` for any finite value.  Quantifying over
every such result covers every IEEE evaluation of the expression. -/
def f32_result_as_i16 (v : Option ℚ) : Int :=
  match v with
  | none => 0
  | some q => max (-32768) (min 32767 (if q < 0 then ⌈q⌉ else ⌊q⌋))

/-! ## WAV container encode/decode (src/stt.rs `pcm_to_wav_bytes`,
src/tts.rs `decode_wav_to_i16`) -/

/-- Little-endian byte splits of 16- and 32-bit fields. -/
def u16leBytes (u : Nat) : List Nat :=
  [u % 256, u / 256 % 256]

def u32leBytes (u : Nat) : List Nat :=
  [u % 256, u / 256 % 256, u / 65536 % 256, u / 16777216 % 256]

/-- `i16::to_le_bytes` of a sample value. -/
def i16ToLeBytes (s : Int) : List Nat :=
  u16leBytes (s % 65536).toNat

/-- The sample stream written by the WAV writer, one 16-bit
little-endian sample at a time. -/
def encode_samples : List Int → List Nat
  | [] => []
  | s :: rest => i16ToLeBytes s ++ encode_samples rest

/-- `pcm_to_wav_bytes` (src/stt.rs): a minimal RIFF/WAVE container —
`RIFF` size `WAVE`, a 16-byte PCM `fmt ` chunk (format 1, mono, 16 bits
per sample, the given sample rate) and a `data` chunk holding the
samples; this is the layout the hound writer emits for a mono 16-bit
integer stream, with both size fields patched on finalize. -/
def pcm_to_wav_bytes (samples : List Int) (sample_rate : Nat) : List Nat :=
  let dataSize := 2 * samples.length
  [82, 73, 70, 70] ++ u32leBytes (36 + dataSize) ++ [87, 65, 86, 69] ++
  [102, 109, 116, 32] ++ u32leBytes 16 ++
  u16leBytes 1 ++ u16leBytes 1 ++ u32leBytes sample_rate ++
  u32leBytes (2 * sample_rate) ++ u16leBytes 2 ++ u16leBytes 16 ++
  [100, 97, 116, 97] ++ u32leBytes dataSize ++
  encode_samples samples

/-- `bytes[i]` (reads in the decoder are guarded in bounds; out of
bounds defaults to 0). -/
def byteAt (bs : List Nat) (i : Nat) : Nat :=
  bs.getD i 0

def readU16le (bs : List Nat) (i : Nat) : Nat :=
  byteAt bs i + 256 * byteAt bs (i + 1)

def readU32le (bs : List Nat) (i : Nat) : Nat :=
  byteAt bs i + 256 * byteAt bs (i + 1) + 65536 * byteAt bs (i + 2) +
    16777216 * byteAt bs (i + 3)

/-- `&bytes[start..stop]`. -/
def sliceBytes (bs : List Nat) (start stop : Nat) : List Nat :=
  (bs.drop start).take (stop - start)

structure WavFmtInfo where
  audio_format : Nat
  channels : Nat
  bits_per_sample : Nat
  deriving Repr, DecidableEq

/-- The decoder's chunk-walking `while` loop: starting at offset 12,
record the last `fmt ` chunk big enough to carry the three fields read,
stop at the first `data` chunk; each step advances past the chunk plus
its RIFF pad byte.  (The source's `chunk_start > bytes.len()` break can
never fire under the loop guard.)  Fuel bounds the recursion; every
iteration advances the offset by at least eight, so fuel
`bytes.length` is never exhausted. -/
def wav_chunk_scan (bytes : List Nat) :
    Nat → Nat → Option WavFmtInfo → Option WavFmtInfo × Option (List Nat)
  | 0, _, fmtInfo => (fmtInfo, none)
  | fuel + 1, offset, fmtInfo =>
    if offset + 8 ≤ bytes.length then
      if sliceBytes bytes offset (offset + 4) = [102, 109, 116, 32] ∧
          offset + 8 + 16 ≤
            min (offset + 8 + readU32le bytes (offset + 4)) bytes.length then
        wav_chunk_scan bytes fuel
          (offset + 8 + readU32le bytes (offset + 4) +
            readU32le bytes (offset + 4) % 2)
          (some { audio_format := readU16le bytes (offset + 8)
                  channels := readU16le bytes (offset + 8 + 2)
                  bits_per_sample := readU16le bytes (offset + 8 + 14) })
      else if sliceBytes bytes offset (offset + 4) = [100, 97, 116, 97] then
        (fmtInfo,
         some (sliceBytes bytes (offset + 8)
           (min (offset + 8 + readU32le bytes (offset + 4)) bytes.length)))
      else
        wav_chunk_scan bytes fuel
          (offset + 8 + readU32le bytes (offset + 4) +
            readU32le bytes (offset + 4) % 2)
          fmtInfo
    else (fmtInfo, none)

/-- `decode_wav_sample_to_i16` on the integer sample encodings: 8-bit
unsigned offset-binary shifted up, 16-bit little-endian, 24- and 32-bit
sign-extended then arithmetically shifted down (`>>` on a negative `i32`
is a floor division by the power of two).  The IEEE-float branches
(format 3) are beyond the integer embedding and are mapped to an error;
no theorem exercises them. -/
def decode_wav_sample_to_i16 (format bits : Nat) (frame_bytes : List Nat) :
    Except String Int :=
  if format = 1 ∧ bits = 8 then
    .ok (wrap_i16 (((byteAt frame_bytes 0 : Int) - 128) * 256))
  else if format = 1 ∧ bits = 16 then
    .ok (i16OfLe (byteAt frame_bytes 0) (byteAt frame_bytes 1))
  else if format = 1 ∧ bits = 24 then
    let u := byteAt frame_bytes 0 + 256 * byteAt frame_bytes 1 +
      65536 * byteAt frame_bytes 2
    let v : Int := if u < 8388608 then (u : Int) else (u : Int) - 16777216
    .ok (wrap_i16 (Int.fdiv v 256))
  else if format = 1 ∧ bits = 32 then
    let u := byteAt frame_bytes 0 + 256 * byteAt frame_bytes 1 +
      65536 * byteAt frame_bytes 2 + 16777216 * byteAt frame_bytes 3
    let v : Int := if u < 2147483648 then (u : Int) else (u : Int) - 4294967296
    .ok (wrap_i16 (Int.fdiv v 65536))
  else if format = 3 ∧ (bits = 32 ∨ bits = 64) then
    .error "float sample decode outside the integer embedding"
  else
    .error "unsupported wav format"

/-- The decoder's per-frame channel loop: decode and sum the `ch`
channel samples of one frame, propagating the first decode error. -/
def channel_sum (format bits sample_bytes : Nat) (frame : List Nat) :
    Nat → Except String Int
  | 0 => .ok 0
  | n + 1 =>
    match channel_sum format bits sample_bytes frame n with
    | .error e => .error e
    | .ok acc =>
      match decode_wav_sample_to_i16 format bits
          (sliceBytes frame (n * sample_bytes) (n * sample_bytes + sample_bytes)) with
      | .error e => .error e
      | .ok s => .ok (acc + s)

/-- The decoder's `chunks_exact(frame_bytes)` loop: average each frame's
channels with truncating `i32` division and an `as i16` cast.  Fuel
bounds the recursion by the payload length. -/
def decode_frames (format ch bits sample_bytes frame_bytes : Nat) :
    Nat → List Nat → Except String (List Int)
  | _, [] => .ok []
  | 0, _ => .ok []
  | fuel + 1, payload =>
    if payload.length < frame_bytes then .ok []
    else
      match channel_sum format bits sample_bytes (payload.take frame_bytes) ch with
      | .error e => .error e
      | .ok sum =>
        match decode_frames format ch bits sample_bytes frame_bytes fuel
            (payload.drop frame_bytes) with
        | .error e => .error e
        | .ok rest => .ok (wrap_i16 (Int.tdiv sum ch) :: rest)

/-- `decode_wav_to_i16` (src/tts.rs): validate the RIFF/WAVE header,
walk the chunks for the fmt fields and the data payload, truncate the
payload to whole frames, and decode each frame to a mono sample. -/
def decode_wav_to_i16 (bytes : List Nat) : Except String (List Int) :=
  if bytes.length < 12 ∨ sliceBytes bytes 0 4 ≠ [82, 73, 70, 70] ∨
      sliceBytes bytes 8 12 ≠ [87, 65, 86, 69] then
    .error "invalid wav header"
  else
    match wav_chunk_scan bytes bytes.length 12 none with
    | (none, _) => .error "wav fmt chunk missing"
    | (some _, none) => .error "wav data chunk missing"
    | (some info, some data) =>
      if info.bits_per_sample / 8 = 0 then .error "invalid wav sample size"
      else if info.bits_per_sample / 8 * info.channels = 0 then
        .error "invalid wav frame size"
      else
        decode_frames info.audio_format info.channels info.bits_per_sample
          (info.bits_per_sample / 8) (info.bits_per_sample / 8 * info.channels)
          data.length
          (data.take
            (data.length / (info.bits_per_sample / 8 * info.channels) *
              (info.bits_per_sample / 8 * info.channels)))

/-! ## Server supervisor reconciliation (src/server.rs)

The supervisor thread holds `enabled`, `port` and an optional
`RunningServer`; each command updates one field and then runs
`reconcile_server_state`.  Whether a bind succeeds is the environment's
choice, modelled as a predicate on ports.  Listener lifecycle effects
are recorded as an action trace: `stopListener` covers the stop-signal
plus thread join of `stop_server` (the listener is dead when it
returns), `startListener` a successful bind, `bindFailed` a reported
bind error. -/

inductive ServerCommand where
  | SetEnabled (enabled : Bool)
  | SetPort (port : Nat)
  deriving Repr, DecidableEq

inductive SrvAction where
  | stopListener (port : Nat)
  | startListener (port : Nat)
  | bindFailed (port : Nat)
  deriving Repr, DecidableEq

structure SupState where
  enabled : Bool
  port : Nat
  running : Option Nat
  deriving Repr, DecidableEq

/-- `reconcile_server_state`: disabled → ensure stopped; enabled and
(stopped or running on the wrong port) → stop any running instance, then
start a listener on the desired port, which either binds or reports a
failure and leaves the supervisor stopped. -/
def reconcile_server_state (canBind : Nat → Bool) (enabled : Bool)
    (port : Nat) (running : Option Nat) : Option Nat × List SrvAction :=
  if enabled = false then
    match running with
    | some p => (none, [SrvAction.stopListener p])
    | none => (none, [])
  else
    match running with
    | some p =>
      if p = port then (some p, [])
      else if canBind port then
        (some port, [SrvAction.stopListener p, SrvAction.startListener port])
      else
        (none, [SrvAction.stopListener p, SrvAction.bindFailed port])
    | none =>
      if canBind port then (some port, [SrvAction.startListener port])
      else (none, [SrvAction.bindFailed port])

/-- One supervisor-loop iteration: apply the command to the desired
state, then reconcile. -/
def supervisor_step (canBind : Nat → Bool) (st : SupState)
    (cmd : ServerCommand) : SupState × List SrvAction :=
  let st2 :=
    match cmd with
    | .SetEnabled b => { st with enabled := b }
    | .SetPort p => { st with port := p }
  let r := reconcile_server_state canBind st2.enabled st2.port st2.running
  ({ st2 with running := r.1 }, r.2)

/-- The multiset of live (bound) listeners evolved by one action:
stopping joins the listener's thread (it is gone), a successful start
adds one. -/
def apply_action (live : List Nat) : SrvAction → List Nat
  | SrvAction.stopListener p => live.erase p
  | SrvAction.startListener p => live ++ [p]
  | SrvAction.bindFailed _ => live

def apply_actions (live : List Nat) (acts : List SrvAction) : List Nat :=
  acts.foldl apply_action live

/-- The (pre-state, post-state, actions) snapshot of every reconciliation
step of a command sequence. -/
def supervisor_exec (canBind : Nat → Bool) (st : SupState) :
    List ServerCommand → List (SupState × SupState × List SrvAction)
  | [] => []
  | cmd :: rest =>
    let r := supervisor_step canBind st cmd
    (st, r.1, r.2) :: supervisor_exec canBind r.1 rest

/-! ## Theorems: capture start/stop (claim C1) -/

/-- C1 counterexample: with a non-empty accumulated buffer, a second
`stop_capture` without an intervening `start_capture` returns the same
non-empty buffer, not an empty one — `stop_capture` clones the buffer
and never resets it. -/
theorem stop_capture_twice_not_empty :
    ¬ ((stop_capture (stop_capture
        { capturing := true, buffer := [1] }).1).2 = ([] : List Int)) := by
  decide

/-- C1 (amended): `start_capture` clears any prior buffer contents and
sets the capturing flag; `stop_capture` clears the capturing flag and
returns a copy of the accumulated buffer *without* resetting it, so a
second `stop_capture` without an intervening `start_capture` returns the
same buffer again. -/
theorem capture_start_stop_behavior (s : AudioState) :
    start_capture s = { capturing := true, buffer := [] } ∧
    (stop_capture s).1 = { capturing := false, buffer := s.buffer } ∧
    (stop_capture s).2 = s.buffer ∧
    (stop_capture (stop_capture s).1).2 = s.buffer ∧
    (stop_capture (start_capture s)).2 = [] := by
  rcases s with ⟨c, b⟩
  refine ⟨rfl, rfl, rfl, rfl, rfl⟩

/-! ## Theorems: chord satisfaction (claim C3) -/

/-- Helper: `is_hotkey_active` as one Boolean expression. -/
theorem is_hotkey_active_eq (st : KeyState) (spec : HotkeySpec) :
    is_hotkey_active st spec =
      ((!spec.require_ctrl || st.ctrl) && (!spec.require_shift || st.shift)
        && (!spec.require_alt || st.alt) && (!spec.require_meta || st.meta)
        && (match spec.key with
            | some k => st.pressed_non_mod.contains k
            | none => true)) := by
  rcases spec with ⟨rc, rs, ra, rm, k⟩
  rcases st with ⟨c, s, a, m, p⟩
  cases rc <;> cases rs <;> cases ra <;> cases rm <;> cases c <;> cases s
    <;> cases a <;> cases m <;> simp [is_hotkey_active]

/-- C3: `is_hotkey_active` is true iff every required modifier is down
and, when a primary key is specified, that key is down; a chord with no
primary key is satisfied by modifiers alone; and clearing any required
modifier flag makes it return false. -/
theorem is_hotkey_active_correct (st : KeyState) (spec : HotkeySpec) :
    (is_hotkey_active st spec = true ↔
      ((spec.require_ctrl = true → st.ctrl = true) ∧
       (spec.require_shift = true → st.shift = true) ∧
       (spec.require_alt = true → st.alt = true) ∧
       (spec.require_meta = true → st.meta = true) ∧
       ∀ k, spec.key = some k → st.pressed_non_mod.contains k = true)) ∧
    (spec.key = none →
      (is_hotkey_active st spec = true ↔
        ((spec.require_ctrl = true → st.ctrl = true) ∧
         (spec.require_shift = true → st.shift = true) ∧
         (spec.require_alt = true → st.alt = true) ∧
         (spec.require_meta = true → st.meta = true)))) ∧
    (spec.require_ctrl = true →
      is_hotkey_active { st with ctrl := false } spec = false) ∧
    (spec.require_shift = true →
      is_hotkey_active { st with shift := false } spec = false) ∧
    (spec.require_alt = true →
      is_hotkey_active { st with alt := false } spec = false) ∧
    (spec.require_meta = true →
      is_hotkey_active { st with meta := false } spec = false) := by
  rcases spec with ⟨rc, rs, ra, rm, k⟩
  rcases st with ⟨c, s, a, m, p⟩
  cases rc <;> cases rs <;> cases ra <;> cases rm <;> cases c <;> cases s
    <;> cases a <;> cases m <;> cases k <;> simp [is_hotkey_active]

/-- C3 witness: releasing the required ctrl modifier of the default
ctrl+shift chord deactivates it at a concrete key state. -/
theorem is_hotkey_active_correct_witness :
    is_hotkey_active
      { ctrl := false, shift := true, alt := false, meta := false,
        pressed_non_mod := [] }
      default_hotkey_spec = false :=
  (is_hotkey_active_correct
    { ctrl := true, shift := true, alt := false, meta := false,
      pressed_non_mod := [] }
    default_hotkey_spec).2.2.1 rfl

/-! ## Theorems: chord parsing fallback (claim C4) -/

/-- C4: whenever `parse_hotkey_spec` fails, the worker's chord selection
yields the built-in ctrl+shift default and emits the fallback warning;
whenever it succeeds the parsed chord is used without a warning — so the
selection step is total and never aborts startup.  The last conjunct
pins the fallback to the two-modifier ctrl+shift chord. -/
theorem hotkey_worker_fallback (s : List Char) :
    (parse_hotkey_spec s = none →
      worker_hotkey_choice s = (default_hotkey_spec, true)) ∧
    (∀ sp, parse_hotkey_spec s = some sp →
      worker_hotkey_choice s = (sp, false)) ∧
    default_hotkey_spec =
      { require_ctrl := true, require_shift := true, require_alt := false,
        require_meta := false, key := none } := by
  refine ⟨?_, ?_, rfl⟩
  · intro h
    simp [worker_hotkey_choice, h]
  · intro sp h
    simp [worker_hotkey_choice, h]

/-- C4 witness: the unparseable configuration string "bogus" (an
unparseable token: no modifier, no recognized key) falls back to the
ctrl+shift default with a warning. -/
theorem hotkey_worker_fallback_witness :
    worker_hotkey_choice "bogus".data = (default_hotkey_spec, true) :=
  (hotkey_worker_fallback "bogus".data).1 (by decide)

/-! ## Theorems: voice resolution (claims C6, C10) -/

/-- Helper: `Char.ofNat` of a scalar value below the surrogate range
decodes back to the same code point. -/
theorem char_toNat_ofNat_of_lt {n : Nat} (h : n < 55296) :
    (Char.ofNat n).toNat = n := by
  have hv : n.isValidChar := Or.inl h
  simp [Char.ofNat, hv, Char.ofNatAux, Char.toNat, UInt32.toNat]

/-- Helper: ASCII lowercasing is idempotent. -/
theorem char_toLower_toLower (c : Char) : c.toLower.toLower = c.toLower := by
  simp only [Char.toLower]
  by_cases h : c.toNat ≥ 65 ∧ c.toNat ≤ 90
  · rw [if_pos h]
    have h2 : (Char.ofNat (c.toNat + 32)).toNat = c.toNat + 32 :=
      char_toNat_ofNat_of_lt (by omega)
    rw [h2, if_neg (by omega)]
  · rw [if_neg h, if_neg h]

/-- Helper: lowercasing a character list is idempotent. -/
theorem lowerChars_lowerChars (l : List Char) :
    lowerChars (lowerChars l) = lowerChars l := by
  simp [lowerChars, Function.comp_def, char_toLower_toLower]

/-- C6: voice-resolution precedence.  An explicit request voice is used
when it validates against the provider's voice set and otherwise falls
back to the provider's configured default; with no explicit voice, a
persona mapped through the persona→voice table gets the same validation
and fallback; otherwise the configured default is used.  On the default
configuration, voice "nova" for openai resolves to "nova", voice "bogus"
for openai resolves to the default "alloy", and persona "codex" (mapped
to "rex") for xai resolves to "rex". -/
theorem resolve_voice_precedence (cfg : AppConfig) (req : SpeakRequest)
    (provider : Provider) :
    (∀ v, req.voice = some v →
      resolve_voice cfg req provider =
        if is_valid_voice provider (lowerChars v) then lowerChars v
        else provider_default_voice cfg provider) ∧
    (∀ p m, req.voice = none → req.persona = some p →
      lookup_assoc cfg.persona_voices (lowerChars p) = some m →
      resolve_voice cfg req provider =
        if is_valid_voice provider (lowerChars m) then lowerChars m
        else provider_default_voice cfg provider) ∧
    (∀ p, req.voice = none → req.persona = some p →
      lookup_assoc cfg.persona_voices (lowerChars p) = none →
      resolve_voice cfg req provider = provider_default_voice cfg provider) ∧
    (req.voice = none → req.persona = none →
      resolve_voice cfg req provider = provider_default_voice cfg provider) ∧
    resolve_voice default_voice_config
      { message := "hi".data, persona := none, voice := some "nova".data,
        provider := some Provider.OpenAi, show_text := none, style := none }
      Provider.OpenAi = "nova".data ∧
    resolve_voice default_voice_config
      { message := "hi".data, persona := none, voice := some "bogus".data,
        provider := some Provider.OpenAi, show_text := none, style := none }
      Provider.OpenAi = "alloy".data ∧
    resolve_voice default_voice_config
      { message := "hi".data, persona := some "codex".data, voice := none,
        provider := some Provider.Xai, show_text := none, style := none }
      Provider.Xai = "rex".data := by
  refine ⟨?_, ?_, ?_, ?_, by decide, by decide, by decide⟩
  · intro v hv
    simp [resolve_voice, hv]
  · intro p m hv hp hm
    simp [resolve_voice, hv, hp, hm]
  · intro p hv hp hm
    simp [resolve_voice, hv, hp, hm]
  · intro hv hp
    simp [resolve_voice, hv, hp]

/-- C6 witness: the explicit-voice arm applied at the concrete "nova"
request for openai. -/
theorem resolve_voice_precedence_witness :
    resolve_voice default_voice_config
      { message := "hi".data, persona := none, voice := some "nova".data,
        provider := some Provider.OpenAi, show_text := none, style := none }
      Provider.OpenAi =
      if is_valid_voice Provider.OpenAi (lowerChars "nova".data) then
        lowerChars "nova".data
      else provider_default_voice default_voice_config Provider.OpenAi :=
  (resolve_voice_precedence default_voice_config
    { message := "hi".data, persona := none, voice := some "nova".data,
      provider := some Provider.OpenAi, show_text := none, style := none }
    Provider.OpenAi).1 "nova".data rfl

/-- C10: the resolved voice is always entirely lowercase (a fixpoint of
lowercasing): explicit and persona-supplied candidates are lowercased
before validation, and on validation failure the provider's configured
default is returned lowercased, without itself being checked against the
provider's valid-voice set. -/
theorem resolve_voice_lowercase (cfg : AppConfig) (req : SpeakRequest)
    (provider : Provider) :
    lowerChars (resolve_voice cfg req provider) =
      resolve_voice cfg req provider ∧
    (∀ v, req.voice = some v → is_valid_voice provider (lowerChars v) = false →
      resolve_voice cfg req provider = provider_default_voice cfg provider) ∧
    (∀ p m, req.voice = none → req.persona = some p →
      lookup_assoc cfg.persona_voices (lowerChars p) = some m →
      is_valid_voice provider (lowerChars m) = false →
      resolve_voice cfg req provider = provider_default_voice cfg provider) ∧
    provider_default_voice cfg Provider.Xai = lowerChars cfg.xai_voice ∧
    provider_default_voice cfg Provider.OpenAi = lowerChars cfg.openai_voice ∧
    provider_default_voice cfg Provider.Groq = lowerChars cfg.groq_voice := by
  refine ⟨?_, ?_, ?_, rfl, rfl, rfl⟩
  · have hdef : lowerChars (provider_default_voice cfg provider) =
        provider_default_voice cfg provider := by
      cases provider <;> simp [provider_default_voice, lowerChars_lowerChars]
    rcases hv : req.voice with _ | v
    · rcases hp : req.persona with _ | p
      · simpa [resolve_voice, hv, hp] using hdef
      · rcases hm : lookup_assoc cfg.persona_voices (lowerChars p) with _ | m
        · simpa [resolve_voice, hv, hp, hm] using hdef
        · by_cases hval : is_valid_voice provider (lowerChars m) = true
          · simp [resolve_voice, hv, hp, hm, hval, lowerChars_lowerChars]
          · simp only [Bool.not_eq_true] at hval
            simpa [resolve_voice, hv, hp, hm, hval] using hdef
    · by_cases hval : is_valid_voice provider (lowerChars v) = true
      · simp [resolve_voice, hv, hval, lowerChars_lowerChars]
      · simp only [Bool.not_eq_true] at hval
        simpa [resolve_voice, hv, hval] using hdef
  · intro v hv hval
    simp [resolve_voice, hv, hval]
  · intro p m hv hp hm hval
    simp [resolve_voice, hv, hp, hm, hval]

/-- C10 witness: the invalid explicit voice "bogus" for openai falls
back to the configured default voice. -/
theorem resolve_voice_lowercase_witness :
    resolve_voice default_voice_config
      { message := "hi".data, persona := none, voice := some "bogus".data,
        provider := some Provider.OpenAi, show_text := none, style := none }
      Provider.OpenAi =
      provider_default_voice default_voice_config Provider.OpenAi :=
  (resolve_voice_lowercase default_voice_config
    { message := "hi".data, persona := none, voice := some "bogus".data,
      provider := some Provider.OpenAi, show_text := none, style := none }
    Provider.OpenAi).2.1 "bogus".data rfl (by decide)

/-! ## Theorems: control-plane request handling (claim C7) -/

/-- C7: `GET /health` yields 200 with body `{"ok":true}` and enqueues
nothing; `POST /speak` whose body reads and parses yields 202
`{"accepted":true}` with exactly one item appended to the TTS queue; an
unreadable body yields 400 `{"error":"invalid body"}` and malformed or
mismatched JSON yields 400 `{"error":"invalid json"}`, each enqueuing
nothing; any other method or path yields 404 `{"error":"not found"}`. -/
theorem server_request_handling (parse_speak : List Char → Option SpeakRequest)
    (method : HttpMethod) (url : List Char) (body : BodyRead)
    (queue : List SpeakRequest) :
    (method = HttpMethod.Get → url = "/health".data →
      handle_request parse_speak method url body queue =
        ({ status := 200, body := "\x7b\"ok\":true\x7d".data }, queue)) ∧
    (∀ s r, method = HttpMethod.Post → url = "/speak".data →
      body = BodyRead.ok s → parse_speak s = some r →
      handle_request parse_speak method url body queue =
        ({ status := 202, body := "\x7b\"accepted\":true\x7d".data },
         queue ++ [r])) ∧
    (method = HttpMethod.Post → url = "/speak".data →
      body = BodyRead.readFailed →
      handle_request parse_speak method url body queue =
        ({ status := 400, body := "\x7b\"error\":\"invalid body\"\x7d".data },
         queue)) ∧
    (∀ s, method = HttpMethod.Post → url = "/speak".data →
      body = BodyRead.ok s → parse_speak s = none →
      handle_request parse_speak method url body queue =
        ({ status := 400, body := "\x7b\"error\":\"invalid json\"\x7d".data },
         queue)) ∧
    (¬ (method = HttpMethod.Get ∧ url = "/health".data) →
      ¬ (method = HttpMethod.Post ∧ url = "/speak".data) →
      handle_request parse_speak method url body queue =
        ({ status := 404, body := "\x7b\"error\":\"not found\"\x7d".data },
         queue)) := by
  refine ⟨?_, ?_, ?_, ?_, ?_⟩
  · intro hm hu
    simp [handle_request, hm, hu]
  · intro s r hm hu hb hp
    have hne : ¬ (method = HttpMethod.Get ∧ url = "/health".data) := by
      rintro ⟨h, _⟩; rw [hm] at h; exact HttpMethod.noConfusion h
    simp [handle_request, hne, hm, hu, hb, hp]
  · intro hm hu hb
    have hne : ¬ (method = HttpMethod.Get ∧ url = "/health".data) := by
      rintro ⟨h, _⟩; rw [hm] at h; exact HttpMethod.noConfusion h
    simp [handle_request, hne, hm, hu, hb]
  · intro s hm hu hb hp
    have hne : ¬ (method = HttpMethod.Get ∧ url = "/health".data) := by
      rintro ⟨h, _⟩; rw [hm] at h; exact HttpMethod.noConfusion h
    simp [handle_request, hne, hm, hu, hb, hp]
  · intro h1 h2
    simp only [handle_request]
    rw [if_neg h1, if_neg h2]

/-- C7 witness: a parse-accepting `POST /speak` at a concrete request
enqueues exactly that request and replies 202. -/
theorem server_request_handling_witness :
    handle_request
      (fun _ => some { message := "hello".data, persona := none, voice := none,
                       provider := none, show_text := none, style := none })
      HttpMethod.Post "/speak".data (BodyRead.ok "\x7b\"message\":\"hello\"\x7d".data)
      [] =
    ({ status := 202, body := "\x7b\"accepted\":true\x7d".data },
     [] ++ [{ message := "hello".data, persona := none, voice := none,
              provider := none, show_text := none, style := none }]) :=
  (server_request_handling
    (fun _ => some { message := "hello".data, persona := none, voice := none,
                     provider := none, show_text := none, style := none })
    HttpMethod.Post "/speak".data (BodyRead.ok "\x7b\"message\":\"hello\"\x7d".data)
    []).2.1 "\x7b\"message\":\"hello\"\x7d".data _ rfl rfl rfl rfl

/-! ## Theorems: streaming synthesis termination (claim C9) -/

/-- Helper: without a `response.done` text frame the read loop can never
return successfully. -/
theorem read_audio_no_done_no_ok (frames : List (Nat × WsFrame)) (acc : List Nat)
    (h : ∀ tf ∈ frames, tf.2 ≠ WsFrame.text XaiEvent.responseDone) :
    ∀ pcm, read_audio_until_done frames acc ≠ .ok pcm := by
  induction frames generalizing acc with
  | nil => intro pcm hk; exact Except.noConfusion hk
  | cons head rest ih =>
    intro pcm hk
    rcases head with ⟨t, frame⟩
    have hrest : ∀ tf ∈ rest, tf.2 ≠ WsFrame.text XaiEvent.responseDone := by
      intro tf htf; exact h tf (List.mem_cons_of_mem _ htf)
    by_cases ht : 20000 < t
    · simp only [read_audio_until_done] at hk
      rw [if_pos ht] at hk
      exact Except.noConfusion hk
    · simp only [read_audio_until_done] at hk
      rw [if_neg ht] at hk
      have hhead := h (t, frame) (List.mem_cons_self _ _)
      cases frame with
      | nonText => exact ih acc hrest pcm hk
      | textBadJson => exact Except.noConfusion hk
      | text e =>
        cases e with
        | audioDelta bytes => exact ih _ hrest pcm hk
        | outputItemDone parts => exact ih _ hrest pcm hk
        | responseDone => exact hhead rfl
        | errorEvent payload => exact Except.noConfusion hk
        | otherEvent => exact ih acc hrest pcm hk

/-- C9: the read loop returns success only after a `response.done` text
event; an `error` event observed within the budget aborts with the
propagated error payload regardless of what follows (so a session whose
only event is an error fails rather than succeeding empty); and a
deadline check past the 20-second wall-clock budget aborts with the
timeout error. -/
theorem streaming_read_terminal_events (frames : List (Nat × WsFrame))
    (acc : List Nat) :
    ((∀ tf ∈ frames, tf.2 ≠ WsFrame.text XaiEvent.responseDone) →
      ∀ pcm, read_audio_until_done frames acc ≠ .ok pcm) ∧
    (∀ t payload rest, t ≤ 20000 →
      read_audio_until_done ((t, WsFrame.text (XaiEvent.errorEvent payload)) :: rest) acc =
        .error (TtsFailure.providerError payload)) ∧
    (∀ t payload, t ≤ 20000 →
      read_audio_until_done [(t, WsFrame.text (XaiEvent.errorEvent payload))] [] =
        .error (TtsFailure.providerError payload)) ∧
    (∀ t frame rest, 20000 < t →
      read_audio_until_done ((t, frame) :: rest) acc =
        .error TtsFailure.timedOut) := by
  refine ⟨fun h => read_audio_no_done_no_ok frames acc h, ?_, ?_, ?_⟩
  · intro t payload rest ht
    simp only [read_audio_until_done]
    rw [if_neg (by omega)]
  · intro t payload ht
    simp only [read_audio_until_done]
    rw [if_neg (by omega)]
  · intro t frame rest ht
    simp only [read_audio_until_done]
    rw [if_pos ht]

/-- C9 witness: a concrete session receiving only an error event fails
with the provider error, not an empty success. -/
theorem streaming_read_terminal_events_witness :
    read_audio_until_done [(5, WsFrame.text (XaiEvent.errorEvent "boom".data))] [] =
      .error (TtsFailure.providerError "boom".data) :=
  (streaming_read_terminal_events [] []).2.2.1 5 "boom".data (by omega)

/-! ## Theorems: supervisor reconciliation (claim C8) -/

/-- The per-step contract of one reconciliation: a disabled supervisor
is stopped; an enabled one either runs exactly one listener on the
desired port or reported a bind failure and is stopped; the live-listener
multiset evolves by the step's action trace to match the post-state; and
at every instant inside the step (every prefix of the trace) at most one
listener is bound. -/
def supervisor_contract (pre post : SupState) (acts : List SrvAction) : Prop :=
  (post.enabled = false → post.running = none) ∧
  (post.enabled = true → post.running = some post.port ∨
    (post.running = none ∧ SrvAction.bindFailed post.port ∈ acts)) ∧
  apply_actions pre.running.toList acts = post.running.toList ∧
  (∀ k, (apply_actions pre.running.toList (acts.take k)).length ≤ 1)

/-- Helper: the contract holds for a single `reconcile_server_state`
call. -/
theorem reconcile_sound (canBind : Nat → Bool) (enabled : Bool) (port : Nat)
    (running : Option Nat) (r : Option Nat) (acts : List SrvAction)
    (h : reconcile_server_state canBind enabled port running = (r, acts)) :
    (enabled = false → r = none) ∧
    (enabled = true → r = some port ∨
      (r = none ∧ SrvAction.bindFailed port ∈ acts)) ∧
    apply_actions running.toList acts = r.toList ∧
    (∀ k, (apply_actions running.toList (acts.take k)).length ≤ 1) := by
  cases enabled with
  | false =>
    cases running with
    | none =>
      simp only [reconcile_server_state, if_pos rfl] at h
      obtain ⟨hr, ha⟩ := Prod.mk.injEq .. ▸ h
      subst hr; subst ha
      refine ⟨fun _ => rfl, fun hc => Bool.noConfusion hc, rfl, ?_⟩
      intro k; cases k <;> simp [apply_actions]
    | some p =>
      simp only [reconcile_server_state, if_pos rfl] at h
      obtain ⟨hr, ha⟩ := Prod.mk.injEq .. ▸ h
      subst hr; subst ha
      refine ⟨fun _ => rfl, fun hc => Bool.noConfusion hc, ?_, ?_⟩
      · simp [apply_actions, apply_action]
      · intro k
        cases k with
        | zero => simp [apply_actions]
        | succ k => simp [apply_actions, apply_action]
  | true =>
    cases running with
    | none =>
      by_cases hb : canBind port = true
      · simp [reconcile_server_state, hb] at h
        obtain ⟨hr, ha⟩ := h
        subst hr; subst ha
        refine ⟨fun hc => Bool.noConfusion hc, fun _ => Or.inl rfl, ?_, ?_⟩
        · simp [apply_actions, apply_action]
        · intro k
          cases k with
          | zero => simp [apply_actions]
          | succ k => simp [apply_actions, apply_action]
      · rw [Bool.not_eq_true] at hb
        simp [reconcile_server_state, hb] at h
        obtain ⟨hr, ha⟩ := h
        subst hr; subst ha
        refine ⟨fun hc => Bool.noConfusion hc,
          fun _ => Or.inr ⟨rfl, by simp⟩, rfl, ?_⟩
        intro k
        cases k with
        | zero => simp [apply_actions]
        | succ k => simp [apply_actions, apply_action]
    | some p =>
      by_cases hpq : p = port
      · subst hpq
        simp [reconcile_server_state] at h
        obtain ⟨hr, ha⟩ := h
        subst hr; subst ha
        refine ⟨fun hc => Bool.noConfusion hc, fun _ => Or.inl rfl, rfl, ?_⟩
        intro k; cases k <;> simp [apply_actions]
      · by_cases hb : canBind port = true
        · simp [reconcile_server_state, hpq, hb] at h
          obtain ⟨hr, ha⟩ := h
          subst hr; subst ha
          refine ⟨fun hc => Bool.noConfusion hc, fun _ => Or.inl rfl, ?_, ?_⟩
          · simp [apply_actions, apply_action]
          · intro k
            cases k with
            | zero => simp [apply_actions]
            | succ k =>
              cases k with
              | zero => simp [apply_actions, apply_action]
              | succ k => simp [apply_actions, apply_action]
        · rw [Bool.not_eq_true] at hb
          simp [reconcile_server_state, hpq, hb] at h
          obtain ⟨hr, ha⟩ := h
          subst hr; subst ha
          refine ⟨fun hc => Bool.noConfusion hc,
            fun _ => Or.inr ⟨rfl, by simp⟩, ?_, ?_⟩
          · simp [apply_actions, apply_action]
          · intro k
            cases k with
            | zero => simp [apply_actions]
            | succ k =>
              cases k with
              | zero => simp [apply_actions, apply_action]
              | succ k => simp [apply_actions, apply_action]

/-- Helper: the contract holds for every single supervisor step. -/
theorem supervisor_step_sound (canBind : Nat → Bool) (st : SupState)
    (cmd : ServerCommand) :
    supervisor_contract st (supervisor_step canBind st cmd).1
      (supervisor_step canBind st cmd).2 := by
  cases cmd with
  | SetEnabled b =>
    have h := reconcile_sound canBind b st.port st.running
      (reconcile_server_state canBind b st.port st.running).1
      (reconcile_server_state canBind b st.port st.running).2 rfl
    exact ⟨h.1, h.2.1, h.2.2.1, h.2.2.2⟩
  | SetPort p =>
    have h := reconcile_sound canBind st.enabled p st.running
      (reconcile_server_state canBind st.enabled p st.running).1
      (reconcile_server_state canBind st.enabled p st.running).2 rfl
    exact ⟨h.1, h.2.1, h.2.2.1, h.2.2.2⟩

/-- C8: along every command sequence, each reconciliation step satisfies
the supervisor contract — disabled means stopped; enabled means exactly
one listener bound to the currently desired port, or a reported bind
failure with the supervisor stopped until the next command; the old
listener is stopped and joined before a new one starts, so at most one
listener is live at every instant of every step. -/
theorem server_supervisor_reconciliation (canBind : Nat → Bool)
    (st0 : SupState) (cmds : List ServerCommand) :
    ∀ snap ∈ supervisor_exec canBind st0 cmds,
      supervisor_contract snap.1 snap.2.1 snap.2.2 := by
  induction cmds generalizing st0 with
  | nil => intro snap hmem; exact absurd hmem (List.not_mem_nil snap)
  | cons cmd rest ih =>
    intro snap hmem
    rw [supervisor_exec] at hmem
    rcases List.mem_cons.mp hmem with hhd | htl
    · subst hhd
      exact supervisor_step_sound canBind st0 cmd
    · exact ih _ snap htl

/-- C8 witness: switching the desired port from 8000 to 9000 stops the
old listener before starting the new one, leaving exactly the listener
on 9000 live. -/
theorem server_supervisor_reconciliation_witness :
    apply_actions [8000]
      [SrvAction.stopListener 8000, SrvAction.startListener 9000] = [9000] :=
  (server_supervisor_reconciliation (fun _ => true)
    { enabled := true, port := 8000, running := some 8000 }
    [ServerCommand.SetPort 9000]
    ({ enabled := true, port := 8000, running := some 8000 },
     { enabled := true, port := 9000, running := some 9000 },
     [SrvAction.stopListener 8000, SrvAction.startListener 9000])
    (by decide)).2.2.1

/-! ## Theorems: capture normalization and downmix (claim C5) -/

/-- Helper: the `as i16` wrap is the identity on in-range values. -/
theorem wrap_i16_eq_self {v : Int} (h1 : -32768 ≤ v) (h2 : v ≤ 32767) :
    wrap_i16 v = v := by
  unfold wrap_i16; omega

/-- Helper: a sum of bounded samples is bounded by length times the
bounds. -/
theorem sum_sample_bounds (l : List Int)
    (h : ∀ x ∈ l, -32768 ≤ x ∧ x ≤ 32767) :
    -32768 * l.length ≤ l.sum ∧ l.sum ≤ 32767 * l.length := by
  induction l with
  | nil => simp
  | cons x xs ih =>
    have hx := h x (List.mem_cons_self x xs)
    have hxs := ih fun y hy => h y (List.mem_cons_of_mem x hy)
    simp only [List.sum_cons, List.length_cons]
    push_cast
    constructor <;> nlinarith [hxs.1, hxs.2, hx.1, hx.2]

/-- Helper: truncating division of a per-frame sum by the channel count
stays in the 16-bit range. -/
theorem tdiv_avg_bounds (a : Int) (ch : Nat) (h1 : 1 ≤ ch)
    (hlo : -32768 * ch ≤ a) (hhi : a ≤ 32767 * ch) :
    -32768 ≤ Int.tdiv a ch ∧ Int.tdiv a ch ≤ 32767 := by
  have hch0 : (0 : Int) < (ch : Int) := by exact_mod_cast h1
  rcases le_or_lt 0 a with ha | ha
  · rw [Int.tdiv_eq_ediv ha hch0.le]
    constructor
    · have := Int.ediv_nonneg ha hch0.le; omega
    · have h2 := Int.ediv_le_ediv hch0 hhi
      rwa [Int.mul_ediv_cancel _ (ne_of_gt hch0)] at h2
  · have hna : (0 : Int) ≤ -a := by omega
    have hneg : Int.tdiv (-a) (ch : Int) = -Int.tdiv a (ch : Int) :=
      Int.neg_tdiv a (ch : Int)
    have hb1 : 0 ≤ Int.tdiv (-a) (ch : Int) := by
      rw [Int.tdiv_eq_ediv hna hch0.le]
      exact Int.ediv_nonneg hna hch0.le
    have hb2 : Int.tdiv (-a) (ch : Int) ≤ 32768 := by
      rw [Int.tdiv_eq_ediv hna hch0.le]
      have h2 := Int.ediv_le_ediv hch0 (show -a ≤ 32768 * (ch : Int) by omega)
      rwa [Int.mul_ediv_cancel _ (ne_of_gt hch0)] at h2
    rw [hneg] at hb1 hb2
    omega

/-- Helper: the saturating float→i16 cast lands in the 16-bit range for
every possible result of the floating computation, NaN included. -/
theorem f32_result_as_i16_range (v : Option ℚ) :
    -32768 ≤ f32_result_as_i16 v ∧ f32_result_as_i16 v ≤ 32767 := by
  cases v with
  | none => exact ⟨by decide, by decide⟩
  | some q =>
    refine ⟨le_max_left _ _, max_le (by norm_num) (min_le_left _ _)⟩

/-- Helper: one full frame downmixes to the truncated average of its
channel samples. -/
theorem downmix_frames_single (channels m : Nat) (frame : List Int)
    (hlen : frame.length = channels) (hfuel : channels = m + 1) :
    downmix_frames channels (m + 1) frame =
      [wrap_i16 (Int.tdiv frame.sum channels)] := by
  cases frame with
  | nil => rw [List.length_nil] at hlen; omega
  | cons a l =>
    simp only [downmix_frames]
    rw [if_neg (by omega)]
    rw [← hlen, List.take_length, List.drop_length]
    have hempty : downmix_frames (a :: l).length m ([] : List Int) = [] := by
      cases m <;> simp [downmix_frames]
    rw [hempty]

/-- Helper: every sample produced by the downmix loop is in range. -/
theorem downmix_frames_range (channels : Nat) (hch : 1 ≤ channels)
    (fuel : Nat) :
    ∀ data, (∀ x ∈ data, -32768 ≤ x ∧ x ≤ 32767) →
      ∀ y ∈ downmix_frames channels fuel data, -32768 ≤ y ∧ y ≤ 32767 := by
  induction fuel with
  | zero =>
    intro data h y hy
    cases data <;> simp [downmix_frames] at hy
  | succ fuel ih =>
    intro data h y hy
    cases data with
    | nil => simp [downmix_frames] at hy
    | cons a l =>
      simp only [downmix_frames] at hy
      by_cases hlen : (a :: l).length < channels
      · rw [if_pos hlen] at hy
        simp at hy
      · rw [if_neg hlen] at hy
        rcases List.mem_cons.mp hy with h1 | h2
        · have hsub : ∀ x ∈ (a :: l).take channels, -32768 ≤ x ∧ x ≤ 32767 :=
            fun x hx => h x (List.take_subset _ _ hx)
          have hlen2 : ((a :: l).take channels).length = channels := by
            rw [List.length_take]; omega
          have sb := sum_sample_bounds _ hsub
          rw [hlen2] at sb
          have tb := tdiv_avg_bounds _ channels hch sb.1 sb.2
          rw [h1, wrap_i16_eq_self tb.1 tb.2]
          exact tb
        · exact ih _ (fun x hx => h x (List.drop_subset _ _ hx)) y h2

/-- C5: the U16 normalization lands in the exact range
`[-32768, 32767]`; the F32 path's final saturating `as i16` cast lands
in that range for every value — finite or NaN — its IEEE floating
computation can produce (the arithmetic itself is not modelled; the
I16 path passes the device's signed samples through unchanged); a full
frame of `N` channel samples downmixes to their integer-truncated
average, which is itself in range; and every mono sample the downmixer
produces from in-range input is in range. -/
theorem capture_normalization_downmix (s : Nat) (v : Option ℚ)
    (frame : List Int) (channels : Nat) (data : List Int)
    (hs : s ≤ 65535) (hch : 1 ≤ channels) (hlen : frame.length = channels)
    (hframe : ∀ x ∈ frame, -32768 ≤ x ∧ x ≤ 32767)
    (hdata : ∀ x ∈ data, -32768 ≤ x ∧ x ≤ 32767) :
    (-32768 ≤ normalize_u16_sample s ∧ normalize_u16_sample s ≤ 32767) ∧
    (-32768 ≤ f32_result_as_i16 v ∧ f32_result_as_i16 v ≤ 32767) ∧
    downmix_i16_to_mono frame channels = [Int.tdiv frame.sum channels] ∧
    (-32768 ≤ Int.tdiv frame.sum channels ∧
      Int.tdiv frame.sum channels ≤ 32767) ∧
    (∀ y ∈ downmix_i16_to_mono data channels, -32768 ≤ y ∧ y ≤ 32767) := by
  have sb := sum_sample_bounds frame hframe
  rw [hlen] at sb
  have tb := tdiv_avg_bounds _ channels hch sb.1 sb.2
  refine ⟨?_, f32_result_as_i16_range v, ?_, tb, ?_⟩
  · unfold normalize_u16_sample wrap_i16
    split_ifs <;> omega
  · by_cases hle : channels ≤ 1
    · have hc1 : channels = 1 := by omega
      subst hc1
      obtain ⟨x, rfl⟩ := List.length_eq_one.mp hlen
      simp [downmix_i16_to_mono, Int.tdiv_one]
    · obtain ⟨m, hm⟩ : ∃ m, channels = m + 1 := ⟨channels - 1, by omega⟩
      subst hm
      rw [downmix_i16_to_mono, if_neg hle, hlen,
        downmix_frames_single (m + 1) m frame hlen rfl,
        wrap_i16_eq_self tb.1 tb.2]
  · intro y hy
    by_cases hle : channels ≤ 1
    · rw [downmix_i16_to_mono, if_pos hle] at hy
      exact hdata y hy
    · rw [downmix_i16_to_mono, if_neg hle] at hy
      exact downmix_frames_range channels hch data.length data hdata y hy

/-- C5 witness: a concrete stereo frame `[10, 21]` downmixes to the
truncated average 15, and the concrete normalizations stay in range. -/
theorem capture_normalization_downmix_witness :
    downmix_i16_to_mono [10, 21] 2 = [Int.tdiv (List.sum [10, 21]) 2] :=
  (capture_normalization_downmix 0 none [10, 21] 2 [] (by decide) (by decide)
    (by decide) (by decide) (by decide)).2.2.1

/-! ## Theorems: WAV encode/decode round trip (claim C2) -/

/-- Helper: the encoded sample stream is two bytes per sample. -/
theorem encode_samples_length (l : List Int) :
    (encode_samples l).length = 2 * l.length := by
  induction l with
  | nil => rfl
  | cons s rest ih =>
    simp only [encode_samples, i16ToLeBytes, u16leBytes, List.length_append,
      List.length_cons, List.length_nil, ih]
    omega

/-- Helper: a sample's two little-endian bytes decode back to it. -/
theorem i16OfLe_bytes_of_sample (s : Int) (h1 : -32768 ≤ s) (h2 : s ≤ 32767) :
    i16OfLe ((s % 65536).toNat % 256) ((s % 65536).toNat / 256 % 256) = s := by
  unfold i16OfLe
  split <;> omega

/-- Helper: decoding the encoded mono 16-bit frame stream recovers the
samples. -/
theorem decode_frames_encode_samples (samples : List Int)
    (h : ∀ s ∈ samples, -32768 ≤ s ∧ s ≤ 32767) :
    ∀ fuel, samples.length ≤ fuel →
      decode_frames 1 1 16 2 2 fuel (encode_samples samples) = .ok samples := by
  induction samples with
  | nil =>
    intro fuel _
    cases fuel <;> rfl
  | cons s rest ih =>
    intro fuel hf
    rw [List.length_cons] at hf
    obtain ⟨f, rfl⟩ : ∃ f, fuel = f + 1 := ⟨fuel - 1, by omega⟩
    have hs := h s (List.mem_cons_self s rest)
    have hrest : ∀ x ∈ rest, -32768 ≤ x ∧ x ≤ 32767 :=
      fun x hx => h x (List.mem_cons_of_mem s hx)
    have henc : encode_samples (s :: rest) =
        (s % 65536).toNat % 256 :: (s % 65536).toNat / 256 % 256 ::
          encode_samples rest := rfl
    rw [henc]
    simp only [decode_frames]
    rw [if_neg (by simp only [List.length_cons]; omega)]
    have htake : ((s % 65536).toNat % 256 :: (s % 65536).toNat / 256 % 256 ::
        encode_samples rest).take 2 =
        [(s % 65536).toNat % 256, (s % 65536).toNat / 256 % 256] := rfl
    have hdrop : ((s % 65536).toNat % 256 :: (s % 65536).toNat / 256 % 256 ::
        encode_samples rest).drop 2 = encode_samples rest := rfl
    rw [htake, hdrop]
    have hcs : channel_sum 1 16 2
        [(s % 65536).toNat % 256, (s % 65536).toNat / 256 % 256] 1 =
        .ok (0 + i16OfLe ((s % 65536).toNat % 256)
          ((s % 65536).toNat / 256 % 256)) := rfl
    rw [hcs, zero_add, i16OfLe_bytes_of_sample s hs.1 hs.2]
    simp only []
    rw [ih hrest f (by omega)]
    simp only []
    rw [Nat.cast_one, Int.tdiv_one, wrap_i16_eq_self hs.1 hs.2]

/-- The byte layout `pcm_to_wav_bytes` reduces to: the 44 header bytes
followed by the sample stream.  `wav_bytes_shape` ties it to the encoder
definitionally; the scan proofs below read fields from this form. -/
def wav_header_bytes (n rate : Nat) : List Nat :=
  [82, 73, 70, 70,
   (36 + 2 * n) % 256, (36 + 2 * n) / 256 % 256,
   (36 + 2 * n) / 65536 % 256, (36 + 2 * n) / 16777216 % 256,
   87, 65, 86, 69, 102, 109, 116, 32, 16, 0, 0, 0, 1, 0, 1, 0,
   rate % 256, rate / 256 % 256, rate / 65536 % 256, rate / 16777216 % 256,
   2 * rate % 256, 2 * rate / 256 % 256,
   2 * rate / 65536 % 256, 2 * rate / 16777216 % 256,
   2, 0, 16, 0, 100, 97, 116, 97,
   2 * n % 256, 2 * n / 256 % 256, 2 * n / 65536 % 256, 2 * n / 16777216 % 256]

/-- Helper: the encoder's output is the header bytes followed by the
encoded samples. -/
theorem wav_bytes_shape (samples : List Int) (rate : Nat) :
    pcm_to_wav_bytes samples rate =
      wav_header_bytes samples.length rate ++ encode_samples samples := rfl

/-- C2: encoding `N` mono 16-bit samples at rate `R` and decoding the
produced container yields the same `N` samples bit-exactly, and the
container's fmt-chunk sample-rate field (bytes 24-27) recovers `R`
(`decode_wav_to_i16` itself validates the layout and returns only the
samples).  The size hypotheses are the `u32` field widths of the RIFF
format, inherent in the Rust types. -/
theorem wav_encode_decode_roundtrip (samples : List Int) (rate : Nat)
    (hs : ∀ s ∈ samples, -32768 ≤ s ∧ s ≤ 32767)
    (hn : 2 * samples.length + 36 < 4294967296)
    (hr : rate < 4294967296) :
    decode_wav_to_i16 (pcm_to_wav_bytes samples rate) = .ok samples ∧
    readU32le (pcm_to_wav_bytes samples rate) 24 = rate := by
  have hlenEnc : (encode_samples samples).length = 2 * samples.length :=
    encode_samples_length samples
  have hlenB : (wav_header_bytes samples.length rate ++
      encode_samples samples).length = 44 + 2 * samples.length := by
    rw [List.length_append, hlenEnc,
      show (wav_header_bytes samples.length rate).length = 44 from rfl]
  have hrate2 : readU32le (wav_header_bytes samples.length rate ++
      encode_samples samples) 24 = rate := by
    have b0 : byteAt (wav_header_bytes samples.length rate ++
        encode_samples samples) 24 = rate % 256 := rfl
    have b1 : byteAt (wav_header_bytes samples.length rate ++
        encode_samples samples) (24 + 1) = rate / 256 % 256 := rfl
    have b2 : byteAt (wav_header_bytes samples.length rate ++
        encode_samples samples) (24 + 2) = rate / 65536 % 256 := rfl
    have b3 : byteAt (wav_header_bytes samples.length rate ++
        encode_samples samples) (24 + 3) = rate / 16777216 % 256 := rfl
    unfold readU32le
    rw [b0, b1, b2, b3]
    omega
  have hdsz : readU32le (wav_header_bytes samples.length rate ++
      encode_samples samples) (36 + 4) = 2 * samples.length := by
    have b0 : byteAt (wav_header_bytes samples.length rate ++
        encode_samples samples) (36 + 4) = 2 * samples.length % 256 := rfl
    have b1 : byteAt (wav_header_bytes samples.length rate ++
        encode_samples samples) (36 + 4 + 1) =
        2 * samples.length / 256 % 256 := rfl
    have b2 : byteAt (wav_header_bytes samples.length rate ++
        encode_samples samples) (36 + 4 + 2) =
        2 * samples.length / 65536 % 256 := rfl
    have b3 : byteAt (wav_header_bytes samples.length rate ++
        encode_samples samples) (36 + 4 + 3) =
        2 * samples.length / 16777216 % 256 := rfl
    unfold readU32le
    rw [b0, b1, b2, b3]
    omega
  have hstep1 : wav_chunk_scan (wav_header_bytes samples.length rate ++
      encode_samples samples) ((43 + 2 * samples.length) + 1) 12 none =
      wav_chunk_scan (wav_header_bytes samples.length rate ++
        encode_samples samples) (43 + 2 * samples.length)
        36 (some { audio_format := 1, channels := 1, bits_per_sample := 16 }) := by
    have hfmtid : sliceBytes (wav_header_bytes samples.length rate ++
        encode_samples samples) 12 (12 + 4) = [102, 109, 116, 32] := rfl
    have hcsz : readU32le (wav_header_bytes samples.length rate ++
        encode_samples samples) (12 + 4) = 16 := rfl
    have hf1 : readU16le (wav_header_bytes samples.length rate ++
        encode_samples samples) (12 + 8) = 1 := rfl
    have hf2 : readU16le (wav_header_bytes samples.length rate ++
        encode_samples samples) (12 + 8 + 2) = 1 := rfl
    have hf3 : readU16le (wav_header_bytes samples.length rate ++
        encode_samples samples) (12 + 8 + 14) = 16 := rfl
    simp only [wav_chunk_scan]
    rw [if_pos (show 12 + 8 ≤ (wav_header_bytes samples.length rate ++
        encode_samples samples).length by rw [hlenB]; omega)]
    rw [hcsz, hlenB]
    rw [if_pos (show sliceBytes (wav_header_bytes samples.length rate ++
        encode_samples samples) 12 (12 + 4) = [102, 109, 116, 32] ∧
        12 + 8 + 16 ≤ min (12 + 8 + 16) (44 + 2 * samples.length) from
      ⟨hfmtid, by omega⟩)]
    rw [hf1, hf2, hf3]
  have hstep2 : wav_chunk_scan (wav_header_bytes samples.length rate ++
      encode_samples samples) ((42 + 2 * samples.length) + 1) 36
      (some { audio_format := 1, channels := 1, bits_per_sample := 16 }) =
      (some { audio_format := 1, channels := 1, bits_per_sample := 16 },
       some (encode_samples samples)) := by
    have hdataid : sliceBytes (wav_header_bytes samples.length rate ++
        encode_samples samples) 36 (36 + 4) = [100, 97, 116, 97] := rfl
    simp only [wav_chunk_scan]
    rw [if_pos (show 36 + 8 ≤ (wav_header_bytes samples.length rate ++
        encode_samples samples).length by rw [hlenB]; omega)]
    rw [hdataid]
    rw [if_neg (by rintro ⟨hcontra, _⟩; exact absurd hcontra (by decide))]
    rw [if_pos rfl]
    rw [hdsz, hlenB]
    rw [show 36 + 8 + 2 * samples.length = 44 + 2 * samples.length by omega]
    rw [Nat.min_self]
    have hslice : sliceBytes (wav_header_bytes samples.length rate ++
        encode_samples samples) (36 + 8) (44 + 2 * samples.length) =
        encode_samples samples := by
      unfold sliceBytes
      have hdrop : (wav_header_bytes samples.length rate ++
          encode_samples samples).drop (36 + 8) = encode_samples samples := rfl
      rw [hdrop]
      rw [show 44 + 2 * samples.length - (36 + 8) = 2 * samples.length by omega]
      rw [← hlenEnc, List.take_length]
    rw [hslice]
  have hscan : wav_chunk_scan (wav_header_bytes samples.length rate ++
      encode_samples samples) ((wav_header_bytes samples.length rate ++
        encode_samples samples).length) 12 none =
      (some { audio_format := 1, channels := 1, bits_per_sample := 16 },
       some (encode_samples samples)) := by
    rw [hlenB]
    rw [show 44 + 2 * samples.length = (43 + 2 * samples.length) + 1 by omega]
    rw [hstep1]
    rw [show 43 + 2 * samples.length = (42 + 2 * samples.length) + 1 by omega]
    rw [hstep2]
  rw [wav_bytes_shape]
  refine ⟨?_, hrate2⟩
  have hriff : sliceBytes (wav_header_bytes samples.length rate ++
      encode_samples samples) 0 4 = [82, 73, 70, 70] := rfl
  have hwave : sliceBytes (wav_header_bytes samples.length rate ++
      encode_samples samples) 8 12 = [87, 65, 86, 69] := rfl
  simp only [decode_wav_to_i16]
  rw [if_neg (by
    rintro (h | h | h)
    · rw [hlenB] at h; omega
    · exact h hriff
    · exact h hwave)]
  rw [hscan]
  simp only []
  rw [if_neg (by decide)]
  rw [if_neg (by decide)]
  rw [show (16 : Nat) / 8 = 2 from rfl]
  rw [show (2 : Nat) * 1 = 2 from rfl]
  rw [hlenEnc]
  rw [show 2 * samples.length / 2 * 2 = 2 * samples.length by omega]
  rw [← hlenEnc, List.take_length]
  exact decode_frames_encode_samples samples hs (encode_samples samples).length
    (by rw [hlenEnc]; omega)

/-- C2 witness: the concrete sample list `[1, -2]` at rate 8000 decodes
back bit-exactly and the container stores the rate. -/
theorem wav_encode_decode_roundtrip_witness :
    decode_wav_to_i16 (pcm_to_wav_bytes [1, -2] 8000) = .ok [1, -2] ∧
    readU32le (pcm_to_wav_bytes [1, -2] 8000) 24 = 8000 :=
  wav_encode_decode_roundtrip [1, -2] 8000 (by decide) (by decide) (by decide)

end Push2Type
